import Mathlib

/-!
Verification of the concurrency core of the `cpp_showcase` repository
(`src/threading.hpp`): the `LockFreeStack` class and the `ThreadPool` class.

The stack is embedded sequentially: since `head` is the single atomic cell
and each push/pop is one successful CAS, a sequential execution is the list
of node payloads reachable from `head` (head of the list = top of the stack).
`push` allocates a node in front of the chain; `pop` detaches the head node,
writes its payload to the out-parameter and reports `true`, or reports
`false` on empty leaving the out-parameter and the chain untouched — exactly
the two branches of `LockFreeStack::pop` in the source.

The pool is embedded as a labelled transition system over an explicit pool
state.  Every transition corresponds to one mutex-protected section (or one
task invocation outside the mutex) of the C++ code:
`ThreadPool::enqueue` appends under the lock; a worker that leaves
`condition.wait` either returns (stop set and queue empty), or pops the
front task and invokes it; the invocation either returns normally or lets
a failure propagate out of the thread function (there is no handler in the
worker lambda, so a throwing task kills its worker).  The destructor sets
`stop`, broadcasts, and joins.
-/

namespace CppShowcase

/-! ### Definitions: LockFreeStack (src/threading.hpp, lines 337-380) -/

namespace LockFreeStack

/-- `LockFreeStack<T>::push(value)`: a new node holding `value` is linked in
front of the current head chain. -/
def push (s : List α) (value : α) : List α :=
  value :: s

/-- `LockFreeStack<T>::pop(T& result)`: if the head chain is empty the call
returns `false` and leaves the out-parameter unchanged; otherwise the head
node is detached, its payload is stored into the out-parameter, and the call
returns `true`.  The result triple is (return value, out-parameter after the
call, chain after the call). -/
def pop (s : List α) (result : α) : Bool × α × List α :=
  match s with
  | [] => (false, result, [])
  | x :: t => (true, x, t)

/-- Pushing a whole list of values, in order, onto an existing chain. -/
def pushSeq (s : List α) (vs : List α) : List α :=
  vs.foldl (fun st v => push st v) s

/-- Repeatedly popping until `pop` reports empty, collecting the values the
out-parameter receives.  (`pop` on a non-empty chain always succeeds and
leaves the tail, so the recursion follows the chain.) -/
def popAll (d : α) : List α → List α
  | [] => []
  | x :: t => (pop (x :: t) d).2.1 :: popAll d t

/-- The chain left behind after `n` calls to `pop`. -/
def popNState (d : α) : Nat → List α → List α
  | 0, s => s
  | n + 1, s => popNState d n (pop s d).2.2

end LockFreeStack

/-! ### Definitions: ThreadPool (src/threading.hpp, lines 966-1016) -/

/-- A task handed to `ThreadPool::enqueue`: a nullary callable, identified by
`id`, whose invocation either returns normally or lets a failure propagate
out (`throws = true`). -/
structure Task where
  id : Nat
  throws : Bool
deriving DecidableEq, Repr

/-- The status of one worker thread of the pool: blocked in
`condition.wait` (`idle`), invoking a task outside the mutex
(`running t`), or returned from the thread function (`dead`). -/
inductive WStatus where
  | idle : WStatus
  | running (t : Task) : WStatus
  | dead : WStatus
deriving DecidableEq, Repr

/-- The shared state of a `ThreadPool`, together with the history variables
`submitted` (every task ever passed to `enqueue`, in order), `dequeued`
(every task popped off the queue by a worker, in pop order), `executed`
(every task whose invocation returned normally, in completion order) and
`crashed` (every task whose invocation propagated a failure).  `queue`,
`stop` and `workers` mirror the C++ members `tasks`, `stop` and `workers`. -/
structure PoolState where
  queue : List Task
  stop : Bool
  workers : List WStatus
  submitted : List Task
  dequeued : List Task
  executed : List Task
  crashed : List Task
deriving DecidableEq, Repr

namespace ThreadPool

/-- `ThreadPool::enqueue(task)`: under the mutex the task is appended to the
queue, then one waiter is notified.  The source performs no check of the
`stop` flag on this path. -/
def enqueue (st : PoolState) (t : Task) : PoolState :=
  { st with queue := st.queue ++ [t], submitted := st.submitted ++ [t] }

/-- `ThreadPool::ThreadPool(n)`: empty queue, `stop = false`, `n` workers
parked on the condition variable. -/
def init (n : Nat) : PoolState :=
  { queue := [], stop := false, workers := List.replicate n WStatus.idle,
    submitted := [], dequeued := [], executed := [], crashed := [] }

/-- The task a worker in the given status is invoking, if any. -/
def statusTasks : WStatus → List Task
  | WStatus.running t => [t]
  | _ => []

/-- The tasks currently being invoked by some worker. -/
def runningTasks (ws : List WStatus) : List Task :=
  ws.flatMap statusTasks

/-- Every worker thread has returned. -/
def allDead (st : PoolState) : Prop :=
  ∀ w ∈ st.workers, w = WStatus.dead

/-- `true` on a worker that is invoking a task that will propagate a
failure. -/
def statusThrows : WStatus → Bool
  | WStatus.running t => t.throws
  | _ => false

/-- No queued task and no task currently being invoked will propagate a
failure out of its invocation. -/
def NoThrow (st : PoolState) : Prop :=
  (∀ t ∈ st.queue, t.throws = false) ∧ (∀ w ∈ st.workers, statusThrows w = false)

instance (st : PoolState) : Decidable (allDead st) := by
  unfold allDead; infer_instance

instance (st : PoolState) : Decidable (NoThrow st) := by
  unfold NoThrow; infer_instance

/-- The atomic actions of the pool: a producer calling `enqueue`, the
destructor setting `stop` under the mutex, and the three things worker `i`
can do after leaving `condition.wait` — pop the front task (`take`), have
the popped task's invocation return (`finish`) or propagate a failure
(`crash`), or return from the thread function (`exitW`). -/
inductive Act where
  | submit (t : Task) : Act
  | setStop : Act
  | take (i : Nat) : Act
  | finish (i : Nat) : Act
  | crash (i : Nat) : Act
  | exitW (i : Nat) : Act
deriving DecidableEq, Repr

/-- One step of the pool.  Each constructor is one mutex-protected section
of the C++ code (or one task invocation outside the mutex):

* `submit`: `enqueue` appends unconditionally — the source checks nothing.
* `setStop`: the destructor's `stop = true` under the mutex.
* `take`: a worker wakes with the queue non-empty (`condition.wait`'s
  predicate is `stop || !tasks.empty()`, and the early `return` fires only
  when `stop && tasks.empty()`), pops the front task and starts invoking it.
* `finish`: the invocation `task()` returns normally; the worker loops back
  to the wait.
* `crash`: the invocation propagates a failure; the worker lambda has no
  handler, so the failure leaves the thread function and the worker is gone.
* `exitW`: a worker wakes with `stop` set and the queue empty and returns. -/
inductive Step : PoolState → Act → PoolState → Prop where
  | submit (st : PoolState) (t : Task) :
      Step st (Act.submit t) (enqueue st t)
  | setStop (st : PoolState) :
      Step st Act.setStop { st with stop := true }
  | take (st : PoolState) (i : Nat) (t : Task) (ts : List Task)
      (hw : st.workers.get? i = some WStatus.idle)
      (hq : st.queue = t :: ts) :
      Step st (Act.take i)
        { st with queue := ts,
                  workers := st.workers.set i (WStatus.running t),
                  dequeued := st.dequeued ++ [t] }
  | finish (st : PoolState) (i : Nat) (t : Task)
      (hw : st.workers.get? i = some (WStatus.running t))
      (ht : t.throws = false) :
      Step st (Act.finish i)
        { st with workers := st.workers.set i WStatus.idle,
                  executed := st.executed ++ [t] }
  | crash (st : PoolState) (i : Nat) (t : Task)
      (hw : st.workers.get? i = some (WStatus.running t))
      (ht : t.throws = true) :
      Step st (Act.crash i)
        { st with workers := st.workers.set i WStatus.dead,
                  crashed := st.crashed ++ [t] }
  | exitW (st : PoolState) (i : Nat)
      (hw : st.workers.get? i = some WStatus.idle)
      (hs : st.stop = true)
      (hq : st.queue = []) :
      Step st (Act.exitW i) { st with workers := st.workers.set i WStatus.dead }

/-- Some step is possible. -/
def StepR (st st' : PoolState) : Prop := ∃ a, Step st a st'

/-- Finitely many steps. -/
def Steps : PoolState → PoolState → Prop := Relation.ReflTransGen StepR

/-- Actions performed by a worker thread (as opposed to the producer or the
destructor). -/
def workerAct : Act → Prop
  | Act.submit _ => False
  | Act.setStop => False
  | _ => True

/-- A worker-thread step. -/
def WStepR (st st' : PoolState) : Prop := ∃ a, workerAct a ∧ Step st a st'

/-- Finitely many worker-thread steps: what happens between the destructor's
broadcast and the completion of its `join` loop. -/
def WSteps : PoolState → PoolState → Prop := Relation.ReflTransGen WStepR

/-- The multiset of tasks the pool is accountable for: completed, being
invoked, still queued, or lost to a propagating failure. -/
def load (st : PoolState) : Multiset Task :=
  (↑st.executed : Multiset Task) + ↑(runningTasks st.workers) + ↑st.queue + ↑st.crashed

end ThreadPool

/-! ### Definitions: concrete states used as counterexamples and witnesses -/

/-- A harmless task. -/
def t7 : Task := { id := 7, throws := false }

/-- A task whose invocation propagates a failure. -/
def tboom : Task := { id := 1, throws := true }

/-- A harmless task queued behind `tboom`. -/
def tok : Task := { id := 2, throws := false }

/-- A harmless task sitting in the queue at shutdown. -/
def tq : Task := { id := 3, throws := false }

/-- First of two harmless tasks for a complete pool run. -/
def tA : Task := { id := 10, throws := false }

/-- Second of two harmless tasks for a complete pool run. -/
def tB : Task := { id := 11, throws := false }

/-- A pool whose shutdown has begun (stop set) with one still-live idle
worker and an empty queue. -/
def stStopped : PoolState :=
  { queue := [], stop := true, workers := [WStatus.idle],
    submitted := [], dequeued := [], executed := [], crashed := [] }

/-- `stStopped` after `enqueue t7` was called post-shutdown and the worker
then dequeued and ran the task. -/
def stStoppedRan : PoolState :=
  { queue := [], stop := true, workers := [WStatus.idle],
    submitted := [t7], dequeued := [t7], executed := [t7], crashed := [] }

/-- A single-worker pool whose worker is invoking the throwing task `tboom`
while the harmless task `tok` waits in the queue. -/
def stRunningBoom : PoolState :=
  { queue := [tok], stop := false, workers := [WStatus.running tboom],
    submitted := [tboom, tok], dequeued := [tboom], executed := [], crashed := [] }

/-- `stRunningBoom` after the invocation of `tboom` propagated its failure:
the worker is gone and `tok` is still queued. -/
def stAfterCrash : PoolState :=
  { queue := [tok], stop := false, workers := [WStatus.dead],
    submitted := [tboom, tok], dequeued := [tboom], executed := [],
    crashed := [tboom] }

/-- A single-worker pool at the moment shutdown begins with the task `tq`
still in the queue. -/
def stShutdownPending : PoolState :=
  { queue := [tq], stop := true, workers := [WStatus.idle],
    submitted := [tq], dequeued := [], executed := [], crashed := [] }

/-- `stShutdownPending` after the worker drained and ran `tq`. -/
def stShutdownDone : PoolState :=
  { queue := [], stop := true, workers := [WStatus.idle],
    submitted := [tq], dequeued := [tq], executed := [tq], crashed := [] }

/-- `stShutdownPending` after the worker drained, ran `tq`, and exited. -/
def stShutdownExited : PoolState :=
  { queue := [], stop := true, workers := [WStatus.dead],
    submitted := [tq], dequeued := [tq], executed := [tq], crashed := [] }

/-- The final state of a complete run of a one-worker pool: `tA` and `tB`
submitted, shutdown, both drained and executed, worker exited. -/
def exFinal : PoolState :=
  { queue := [], stop := true, workers := [WStatus.dead],
    submitted := [tA, tB], dequeued := [tA, tB], executed := [tA, tB],
    crashed := [] }

/-- A fresh one-worker pool after its destructor finished: stop set, worker
exited. -/
def stExited : PoolState :=
  { queue := [], stop := true, workers := [WStatus.dead],
    submitted := [], dequeued := [], executed := [], crashed := [] }

/-! ### Lemmas: LockFreeStack -/

namespace LockFreeStack

theorem pushSeq_eq_reverse_append (vs : List α) (s : List α) :
    pushSeq s vs = vs.reverse ++ s := by
  induction vs generalizing s with
  | nil => simp [pushSeq]
  | cons v vs ih =>
    rw [show pushSeq s (v :: vs) = pushSeq (push s v) vs from rfl, ih]
    simp [push]

theorem popAll_eq (d : α) (s : List α) : popAll d s = s := by
  induction s with
  | nil => rfl
  | cons x t ih => simp [popAll, pop, ih]

theorem popNState_eq_drop (d : α) (n : Nat) (s : List α) :
    popNState d n s = s.drop n := by
  induction n generalizing s with
  | zero => rfl
  | succ n ih =>
    cases s with
    | nil => simp [popNState, pop, ih]
    | cons x t => simp [popNState, pop, ih]

end LockFreeStack

/-! ### Lemmas: list and multiset bookkeeping -/

theorem get?_set_same {α : Type u} {l : List α} {i : Nat} {a : α} (b : α)
    (h : l.get? i = some a) : (l.set i b).get? i = some b := by
  rw [List.get?_set_eq, h]; rfl

theorem get?_set_other {α : Type u} {l : List α} {i j : Nat} (b : α)
    (h : i ≠ j) : (l.set i b).get? j = l.get? j :=
  List.get?_set_ne _ _ h

namespace ThreadPool

theorem runningTasks_set (l : List WStatus) :
    ∀ (i : Nat) (a b : WStatus), l.get? i = some a →
    (↑(runningTasks (l.set i b)) : Multiset Task) + ↑(statusTasks a) =
      (↑(runningTasks l) : Multiset Task) + ↑(statusTasks b) := by
  induction l with
  | nil => intro i a b h; simp at h
  | cons x xs ih =>
    intro i a b h
    cases i with
    | zero =>
      simp only [List.get?] at h
      injection h with h; subst h
      simp only [List.set, runningTasks, List.flatMap_cons, ← Multiset.coe_add]
      abel
    | succ n =>
      simp only [List.get?] at h
      have hx := ih n a b h
      simp only [List.set, runningTasks, List.flatMap_cons, ← Multiset.coe_add] at hx ⊢
      calc (↑(statusTasks x) : Multiset Task) + ↑((xs.set n b).flatMap statusTasks)
          + ↑(statusTasks a)
          = ↑(statusTasks x)
            + (↑((xs.set n b).flatMap statusTasks) + ↑(statusTasks a)) := by abel
        _ = ↑(statusTasks x) + (↑(xs.flatMap statusTasks) + ↑(statusTasks b)) := by
            rw [hx]
        _ = ↑(statusTasks x) + ↑(xs.flatMap statusTasks) + ↑(statusTasks b) := by abel

/-- One step never loses or invents a task: the load tracks exactly what has
been submitted. -/
theorem step_load {st st' : PoolState} {a : Act} (h : Step st a st')
    (hinv : load st = ↑st.submitted) : load st' = ↑st'.submitted := by
  cases h with
  | submit t =>
    simp only [load, enqueue, ← Multiset.coe_add] at hinv ⊢
    rw [← hinv]
    abel
  | setStop => exact hinv
  | take i t ts hw hq =>
    have hr := runningTasks_set st.workers i WStatus.idle (WStatus.running t) hw
    simp only [statusTasks, Multiset.coe_nil, add_zero] at hr
    simp only [load, hq] at hinv ⊢
    rw [hr, ← hinv]
    have : (↑(t :: ts) : Multiset Task) = ↑[t] + ↑ts := by
      rw [Multiset.coe_add]; rfl
    rw [this]
    abel
  | finish i t hw ht =>
    have hr := runningTasks_set st.workers i (WStatus.running t) WStatus.idle hw
    simp only [statusTasks, Multiset.coe_nil, add_zero] at hr
    simp only [load, ← Multiset.coe_add] at hinv ⊢
    rw [← hinv, ← hr]
    abel
  | crash i t hw ht =>
    have hr := runningTasks_set st.workers i (WStatus.running t) WStatus.dead hw
    simp only [statusTasks, Multiset.coe_nil, add_zero] at hr
    simp only [load, ← Multiset.coe_add] at hinv ⊢
    rw [← hinv, ← hr]
    abel
  | exitW i hw hs hq =>
    have hr := runningTasks_set st.workers i WStatus.idle WStatus.dead hw
    simp only [statusTasks, Multiset.coe_nil, add_zero] at hr
    simp only [load] at hinv ⊢
    rw [hr]
    exact hinv

/-- A worker-thread step leaves the load untouched. -/
theorem wstep_load {st st' : PoolState} {a : Act} (h : Step st a st')
    (hwa : workerAct a) : load st' = load st := by
  cases h with
  | submit t => cases hwa
  | setStop => cases hwa
  | take i t ts hw hq =>
    have hr := runningTasks_set st.workers i WStatus.idle (WStatus.running t) hw
    simp only [statusTasks, Multiset.coe_nil, add_zero] at hr
    simp only [load, hq, hr]
    have : (↑(t :: ts) : Multiset Task) = ↑[t] + ↑ts := by
      rw [Multiset.coe_add]; rfl
    rw [this]
    abel
  | finish i t hw ht =>
    have hr := runningTasks_set st.workers i (WStatus.running t) WStatus.idle hw
    simp only [statusTasks, Multiset.coe_nil, add_zero] at hr
    simp only [load, ← Multiset.coe_add]
    rw [← hr]
    abel
  | crash i t hw ht =>
    have hr := runningTasks_set st.workers i (WStatus.running t) WStatus.dead hw
    simp only [statusTasks, Multiset.coe_nil, add_zero] at hr
    simp only [load, ← Multiset.coe_add]
    rw [← hr]
    abel
  | exitW i hw hs hq =>
    have hr := runningTasks_set st.workers i WStatus.idle WStatus.dead hw
    simp only [statusTasks, Multiset.coe_nil, add_zero] at hr
    simp only [load, hr]

/-- FIFO bookkeeping: what has been dequeued followed by what is still
queued is exactly what was submitted, in order. -/
theorem step_fifo {st st' : PoolState} {a : Act} (h : Step st a st')
    (hinv : st.dequeued ++ st.queue = st.submitted) :
    st'.dequeued ++ st'.queue = st'.submitted := by
  cases h with
  | submit t =>
    simp only [enqueue, ← List.append_assoc, hinv]
  | setStop => exact hinv
  | take i t ts hw hq =>
    simp only [List.append_assoc, List.singleton_append, ← hq, hinv]
  | finish i t hw ht => exact hinv
  | crash i t hw ht => exact hinv
  | exitW i hw hs hq => exact hinv

theorem steps_load {st st' : PoolState} (h : Steps st st')
    (hinv : load st = ↑st.submitted) : load st' = ↑st'.submitted := by
  induction h with
  | refl => exact hinv
  | tail _ hstep ih =>
    obtain ⟨a, ha⟩ := hstep
    exact step_load ha ih

theorem wsteps_load {st st' : PoolState} (h : WSteps st st') :
    load st' = load st := by
  induction h with
  | refl => rfl
  | tail _ hstep ih =>
    obtain ⟨a, hwa, ha⟩ := hstep
    rw [wstep_load ha hwa, ih]

theorem steps_fifo {st st' : PoolState} (h : Steps st st')
    (hinv : st.dequeued ++ st.queue = st.submitted) :
    st'.dequeued ++ st'.queue = st'.submitted := by
  induction h with
  | refl => exact hinv
  | tail _ hstep ih =>
    obtain ⟨a, ha⟩ := hstep
    exact step_fifo ha ih

theorem load_init (n : Nat) : load (init n) = ↑(init n).submitted := by
  simp [load, init, runningTasks, statusTasks]

theorem fifo_init (n : Nat) :
    (init n).dequeued ++ (init n).queue = (init n).submitted := rfl

theorem wsteps_to_steps {st st' : PoolState} (h : WSteps st st') : Steps st st' := by
  induction h with
  | refl => exact Relation.ReflTransGen.refl
  | tail _ hstep ih =>
    exact Relation.ReflTransGen.tail ih ⟨hstep.choose, hstep.choose_spec.2⟩

/-- Worker-thread steps never touch the `stop` flag. -/
theorem wstep_stop {st st' : PoolState} {a : Act} (h : Step st a st')
    (hwa : workerAct a) : st'.stop = st.stop := by
  cases h with
  | submit t => cases hwa
  | setStop => cases hwa
  | take i t ts hw hq => rfl
  | finish i t hw ht => rfl
  | crash i t hw ht => rfl
  | exitW i hw hs hq => rfl

/-- Worker-thread steps never submit. -/
theorem wstep_submitted {st st' : PoolState} {a : Act} (h : Step st a st')
    (hwa : workerAct a) : st'.submitted = st.submitted := by
  cases h with
  | submit t => cases hwa
  | setStop => cases hwa
  | take i t ts hw hq => rfl
  | finish i t hw ht => rfl
  | crash i t hw ht => rfl
  | exitW i hw hs hq => rfl

/-- Worker-thread steps preserve the absence of failing tasks. -/
theorem wstep_noThrow {st st' : PoolState} {a : Act} (h : Step st a st')
    (hwa : workerAct a) (hnt : NoThrow st) : NoThrow st' := by
  cases h with
  | submit t => cases hwa
  | setStop => cases hwa
  | take i t ts hw hq =>
    refine ⟨fun u hu => hnt.1 u (by rw [hq]; exact List.mem_cons_of_mem _ hu), ?_⟩
    intro w hwmem
    rcases List.mem_or_eq_of_mem_set hwmem with hmem | rfl
    · exact hnt.2 w hmem
    · have : t.throws = false := hnt.1 t (by rw [hq]; exact List.mem_cons_self _ _)
      simpa [statusThrows] using this
  | finish i t hw ht =>
    refine ⟨hnt.1, ?_⟩
    intro w hwmem
    rcases List.mem_or_eq_of_mem_set hwmem with hmem | rfl
    · exact hnt.2 w hmem
    · rfl
  | crash i t hw ht =>
    exfalso
    have := hnt.2 _ (List.get?_mem hw)
    rw [statusThrows, ht] at this
    cases this
  | exitW i hw hs hq =>
    refine ⟨hnt.1, ?_⟩
    intro w hwmem
    rcases List.mem_or_eq_of_mem_set hwmem with hmem | rfl
    · exact hnt.2 w hmem
    · rfl

/-- In the absence of failing tasks a worker-thread step never loses a task
to a propagating failure. -/
theorem wstep_crashed {st st' : PoolState} {a : Act} (h : Step st a st')
    (hwa : workerAct a) (hnt : NoThrow st) : st'.crashed = st.crashed := by
  cases h with
  | submit t => cases hwa
  | setStop => cases hwa
  | take i t ts hw hq => rfl
  | finish i t hw ht => rfl
  | crash i t hw ht =>
    exfalso
    have := hnt.2 _ (List.get?_mem hw)
    rw [statusThrows, ht] at this
    cases this
  | exitW i hw hs hq => rfl

theorem wsteps_stop {st st' : PoolState} (h : WSteps st st') :
    st'.stop = st.stop := by
  induction h with
  | refl => rfl
  | tail _ hstep ih =>
    obtain ⟨a, hwa, ha⟩ := hstep
    rw [wstep_stop ha hwa, ih]

theorem wsteps_submitted {st st' : PoolState} (h : WSteps st st') :
    st'.submitted = st.submitted := by
  induction h with
  | refl => rfl
  | tail _ hstep ih =>
    obtain ⟨a, hwa, ha⟩ := hstep
    rw [wstep_submitted ha hwa, ih]

theorem wsteps_noThrow {st st' : PoolState} (h : WSteps st st')
    (hnt : NoThrow st) : NoThrow st' := by
  induction h with
  | refl => exact hnt
  | tail _ hstep ih =>
    obtain ⟨a, hwa, ha⟩ := hstep
    exact wstep_noThrow ha hwa ih

theorem wsteps_crashed {st st' : PoolState} (h : WSteps st st')
    (hnt : NoThrow st) : st'.crashed = st.crashed := by
  induction h with
  | refl => rfl
  | tail hs hstep ih =>
    obtain ⟨a, hwa, ha⟩ := hstep
    rw [wstep_crashed ha hwa (wsteps_noThrow hs hnt), ih]

/-- The last worker to die can only die by returning from the loop, which
requires an empty queue: once every worker is dead the queue is drained.
(The hypothesis that some worker was alive at the start rules out the
degenerate pool that never had a live worker.) -/
theorem wsteps_drained {st st' : PoolState} (h : WSteps st st')
    (hnt : NoThrow st) (halive : ¬ allDead st) (hdead : allDead st') :
    st'.queue = [] := by
  induction h with
  | refl => exact absurd hdead halive
  | tail hs hstep ih =>
    obtain ⟨a, hwa, ha⟩ := hstep
    cases ha with
    | submit t => cases hwa
    | setStop => cases hwa
    | take i t ts hw hq =>
      exfalso
      have hmem := List.get?_mem (get?_set_same (WStatus.running t) hw)
      cases hdead _ hmem
    | finish i t hw ht =>
      exfalso
      have hmem := List.get?_mem (get?_set_same WStatus.idle hw)
      cases hdead _ hmem
    | crash i t hw ht =>
      exfalso
      have := (wsteps_noThrow hs hnt).2 _ (List.get?_mem hw)
      rw [statusThrows, ht] at this
      cases this
    | exitW i hw hsx hq => exact hq

/-- A worker that is invoking a task whose invocation will propagate a
failure either is still invoking it or is gone; no step brings it back to
the wait loop, because the only transition out of `running t` for a
throwing `t` is the uncaught propagation. -/
theorem step_throw_worker {st st' : PoolState} {a : Act} {i : Nat} {t : Task}
    (ht : t.throws = true) (h : Step st a st')
    (hcur : st.workers.get? i = some (WStatus.running t) ∨
            st.workers.get? i = some WStatus.dead) :
    st'.workers.get? i = some (WStatus.running t) ∨
      st'.workers.get? i = some WStatus.dead := by
  cases h with
  | submit u => exact hcur
  | setStop => exact hcur
  | take j u ts hw hq =>
    by_cases hij : j = i
    · subst hij
      rcases hcur with hc | hc <;> rw [hw] at hc <;> cases hc
    · show (st.workers.set j _).get? i = _ ∨ (st.workers.set j _).get? i = _
      rw [get?_set_other _ hij]
      exact hcur
  | finish j u hw hu =>
    by_cases hij : j = i
    · subst hij
      rcases hcur with hc | hc <;> rw [hw] at hc
      · injection hc with hc
        injection hc with hc
        subst hc
        rw [ht] at hu
        cases hu
      · cases hc
    · show (st.workers.set j _).get? i = _ ∨ (st.workers.set j _).get? i = _
      rw [get?_set_other _ hij]
      exact hcur
  | crash j u hw hu =>
    by_cases hij : j = i
    · subst hij
      exact Or.inr (get?_set_same _ hw)
    · show (st.workers.set j _).get? i = _ ∨ (st.workers.set j _).get? i = _
      rw [get?_set_other _ hij]
      exact hcur
  | exitW j hw hs hq =>
    by_cases hij : j = i
    · subst hij
      rcases hcur with hc | hc <;> rw [hw] at hc <;> cases hc
    · show (st.workers.set j _).get? i = _ ∨ (st.workers.set j _).get? i = _
      rw [get?_set_other _ hij]
      exact hcur

theorem steps_throw_worker {st st' : PoolState} {i : Nat} {t : Task}
    (ht : t.throws = true) (h : Steps st st')
    (hcur : st.workers.get? i = some (WStatus.running t) ∨
            st.workers.get? i = some WStatus.dead) :
    st'.workers.get? i = some (WStatus.running t) ∨
      st'.workers.get? i = some WStatus.dead := by
  induction h with
  | refl => exact hcur
  | tail _ hstep ih =>
    obtain ⟨a, ha⟩ := hstep
    exact step_throw_worker ht ha ih

/-- Once every worker is dead, none is invoking anything. -/
theorem allDead_runningTasks {st : PoolState} (h : allDead st) :
    runningTasks st.workers = [] := by
  rw [runningTasks, List.flatMap_eq_nil_iff]
  intro w hw
  rw [h w hw]
  rfl

/-- `submitted` only ever grows. -/
theorem step_submitted_sub {st st' : PoolState} {a : Act} (h : Step st a st') :
    ∀ u ∈ st.submitted, u ∈ st'.submitted := by
  cases h with
  | submit t => intro u hu; exact List.mem_append_left _ hu
  | setStop => intro u hu; exact hu
  | take i t ts hw hq => intro u hu; exact hu
  | finish i t hw ht => intro u hu; exact hu
  | crash i t hw ht => intro u hu; exact hu
  | exitW i hw hs hq => intro u hu; exact hu

/-- The worker vector never changes size: exactly the constructed workers
exist. -/
theorem step_workers_length {st st' : PoolState} {a : Act} (h : Step st a st') :
    st'.workers.length = st.workers.length := by
  cases h with
  | submit t => rfl
  | setStop => rfl
  | take i t ts hw hq => simp
  | finish i t hw ht => simp
  | crash i t hw ht => simp
  | exitW i hw hs hq => simp

theorem steps_workers_length {st st' : PoolState} (h : Steps st st') :
    st'.workers.length = st.workers.length := by
  induction h with
  | refl => rfl
  | tail _ hstep ih =>
    obtain ⟨a, ha⟩ := hstep
    rw [step_workers_length ha, ih]

/-- With a single worker and no failing task, the completed invocations
followed by the in-flight task followed by the queue reproduce the
submission order exactly: tasks complete in submission order. -/
theorem step_trace_one {st st' : PoolState} {a : Act} (h : Step st a st')
    (hw1 : st.workers.length = 1)
    (hnt : ∀ u ∈ st'.submitted, u.throws = false)
    (htr : st.executed ++ runningTasks st.workers ++ st.queue = st.submitted) :
    st'.executed ++ runningTasks st'.workers ++ st'.queue = st'.submitted := by
  obtain ⟨w, hwEq⟩ := List.length_eq_one.mp hw1
  cases h with
  | submit t =>
    show st.executed ++ runningTasks st.workers ++ (st.queue ++ [t])
        = st.submitted ++ [t]
    rw [← htr]
    simp
  | setStop => exact htr
  | take i t ts hw hq =>
    rw [hwEq] at hw
    cases i with
    | zero =>
      simp only [List.get?] at hw
      injection hw with hw
      subst hw
      show st.executed ++ runningTasks (st.workers.set 0 (WStatus.running t)) ++ ts
          = st.submitted
      rw [← htr, hwEq, hq]
      simp [runningTasks, statusTasks]
    | succ n => simp [List.get?] at hw
  | finish i t hw ht =>
    rw [hwEq] at hw
    cases i with
    | zero =>
      simp only [List.get?] at hw
      injection hw with hw
      subst hw
      show (st.executed ++ [t]) ++ runningTasks (st.workers.set 0 WStatus.idle)
          ++ st.queue = st.submitted
      rw [← htr, hwEq]
      simp [runningTasks, statusTasks]
    | succ n => simp [List.get?] at hw
  | crash i t hw ht =>
    exfalso
    have hmem : t ∈ st.submitted := by
      rw [← htr]
      refine List.mem_append_left _ (List.mem_append_right _ ?_)
      rw [runningTasks]
      exact List.mem_flatMap.mpr ⟨_, List.get?_mem hw, by simp [statusTasks]⟩
    have := hnt t hmem
    rw [ht] at this
    cases this
  | exitW i hw hs hq =>
    rw [hwEq] at hw
    cases i with
    | zero =>
      simp only [List.get?] at hw
      injection hw with hw
      subst hw
      show st.executed ++ runningTasks (st.workers.set 0 WStatus.dead) ++ st.queue
          = st.submitted
      rw [← htr, hwEq]
      simp [runningTasks, statusTasks]
    | succ n => simp [List.get?] at hw

theorem steps_trace_one {st st' : PoolState} (h : Steps st st')
    (hw1 : st.workers.length = 1)
    (hnt : ∀ u ∈ st'.submitted, u.throws = false)
    (htr : st.executed ++ runningTasks st.workers ++ st.queue = st.submitted) :
    st'.executed ++ runningTasks st'.workers ++ st'.queue = st'.submitted := by
  induction h with
  | refl => exact htr
  | tail hs hstep ih =>
    obtain ⟨a, ha⟩ := hstep
    have hlen : _ = st.workers.length := steps_workers_length hs
    exact step_trace_one ha (hlen.trans hw1) hnt
      (ih fun u hu => hnt u (step_submitted_sub ha u hu))

end ThreadPool

/-! ### Claim theorems -/

/-- Claim C5: for every sequential sequence of pushes on a `LockFreeStack`
followed by pops, pop yields the pushed values in exact reverse push order,
and after all held values have been popped a further pop reports empty. -/
theorem stack_sequential_lifo {α : Type u} (d : α) (vs : List α) :
    LockFreeStack.popAll d (LockFreeStack.pushSeq [] vs) = vs.reverse ∧
    (LockFreeStack.pop
        (LockFreeStack.popNState d vs.length (LockFreeStack.pushSeq [] vs)) d).1
      = false := by
  constructor
  · rw [LockFreeStack.popAll_eq, LockFreeStack.pushSeq_eq_reverse_append,
      List.append_nil]
  · rw [LockFreeStack.popNState_eq_drop, LockFreeStack.pushSeq_eq_reverse_append,
      List.append_nil, show vs.length = vs.reverse.length by simp,
      List.drop_length]
    rfl

/-- Claim C6: `LockFreeStack::pop` on a non-empty stack succeeds and returns
the value held at the top (the head of the chain), and on an empty stack
reports failure leaving the out-parameter alone.  `pop` is a total function
of the current chain — the embedding of a call that completes without
waiting in every state. -/
theorem pop_top_or_empty {α : Type u} (s : List α) (d : α) :
    (LockFreeStack.pop s d).1 = !s.isEmpty ∧
    (LockFreeStack.pop s d).2.1 = s.headD d ∧
    (LockFreeStack.pop s d).2.2 = s.tail := by
  cases s <;> simp [LockFreeStack.pop]

/-- Claim C10: `LockFreeStack::pop` on an empty stack returns `false`,
leaves the out-parameter unchanged and the stack unchanged, and subsequent
pushes and pops behave as if the failed pop never happened. -/
theorem pop_empty_noop {α : Type u} (s : List α) (d v : α) (h : s = []) :
    LockFreeStack.pop s d = (false, d, s) ∧
    LockFreeStack.push (LockFreeStack.pop s d).2.2 v = LockFreeStack.push s v ∧
    LockFreeStack.popAll d (LockFreeStack.pop s d).2.2 = LockFreeStack.popAll d s := by
  subst h
  exact ⟨rfl, rfl, rfl⟩

/-- Witness for C10 at the empty `Nat` stack. -/
theorem pop_empty_noop_witness :
    LockFreeStack.pop ([] : List Nat) 7 = (false, 7, []) ∧
    LockFreeStack.push (LockFreeStack.pop ([] : List Nat) 7).2.2 3
      = LockFreeStack.push ([] : List Nat) 3 ∧
    LockFreeStack.popAll 7 (LockFreeStack.pop ([] : List Nat) 7).2.2
      = LockFreeStack.popAll 7 ([] : List Nat) :=
  pop_empty_noop [] 7 3 rfl

/-- Claim C1 is false on the code: `ThreadPool::enqueue` performs no check
of the `stop` flag, so a task submitted after shutdown has begun IS
enqueued (no `ErrShutdown` exists anywhere in the source), and a still-live
worker then dequeues and executes it. -/
theorem enqueue_after_stop_cex :
    stStopped.stop = true ∧
    (ThreadPool.enqueue stStopped t7).queue = [t7] ∧
    ThreadPool.Steps (ThreadPool.enqueue stStopped t7) stStoppedRan ∧
    t7 ∈ stStoppedRan.executed := by
  refine ⟨rfl, rfl, ?_, by decide⟩
  exact Relation.ReflTransGen.head
    ⟨ThreadPool.Act.take 0, ThreadPool.Step.take _ 0 t7 [] rfl rfl⟩
    (Relation.ReflTransGen.single
      ⟨ThreadPool.Act.finish 0, ThreadPool.Step.finish _ 0 t7 rfl rfl⟩)

/-- Claim C1 (amended): `enqueue` never fails and never consults `stop`:
in every pool state — shutdown begun or not — it appends the task to the
queue, records the submission, leaves `stop` unchanged, and is an enabled
transition of the pool. -/
theorem enqueue_unconditional (st : PoolState) (t : Task) :
    ThreadPool.Step st (ThreadPool.Act.submit t) (ThreadPool.enqueue st t) ∧
    (ThreadPool.enqueue st t).queue = st.queue ++ [t] ∧
    (ThreadPool.enqueue st t).submitted = st.submitted ++ [t] ∧
    (ThreadPool.enqueue st t).stop = st.stop :=
  ⟨ThreadPool.Step.submit st t, rfl, rfl, rfl⟩

/-- Claim C2 is false on the code: the worker lambda invokes `task()` with
no handler, so a task that propagates a failure takes its worker down —
the worker does not return to the wait loop, and the queued task behind it
is still unexecuted. -/
theorem task_failure_kills_worker_cex :
    ThreadPool.Step stRunningBoom (ThreadPool.Act.crash 0) stAfterCrash ∧
    stAfterCrash.workers = [WStatus.dead] ∧
    stAfterCrash.workers ≠ [WStatus.idle] ∧
    stAfterCrash.executed = [] ∧
    tok ∈ stAfterCrash.queue := by
  refine ⟨?_, rfl, by decide, rfl, by decide⟩
  exact ThreadPool.Step.crash _ 0 tboom rfl rfl

/-- Claim C2 (amended): a task that terminates by propagating a failure out
of its invocation kills the executing worker: there is no catch at the
worker-loop boundary, so after any number of further steps that worker is
never back in the wait loop and can never dequeue another task. -/
theorem worker_dies_on_throw {st st' : PoolState} {i : Nat} {t : Task}
    (hw : st.workers.get? i = some (WStatus.running t)) (ht : t.throws = true)
    (h : ThreadPool.Steps st st') :
    st'.workers.get? i ≠ some WStatus.idle ∧
    ∀ st'', ¬ ThreadPool.Step st' (ThreadPool.Act.take i) st'' := by
  have hinv := ThreadPool.steps_throw_worker ht h (Or.inl hw)
  constructor
  · intro hcon
    rcases hinv with hc | hc
    · have h2 := hcon.symm.trans hc
      injection h2 with h2
      cases h2
    · have h2 := hcon.symm.trans hc
      injection h2 with h2
      cases h2
  · intro st'' hstep
    cases hstep with
    | take j u ts hw' hq' =>
      rcases hinv with hc | hc
      · have h2 := hw'.symm.trans hc
        injection h2 with h2
        cases h2
      · have h2 := hw'.symm.trans hc
        injection h2 with h2
        cases h2

/-- Witness for the amended C2: after `tboom` propagates its failure the
lone worker is no longer in the wait loop. -/
theorem worker_dies_on_throw_witness :
    stAfterCrash.workers.get? 0 ≠ some WStatus.idle :=
  (worker_dies_on_throw
    (show stRunningBoom.workers.get? 0 = some (WStatus.running tboom) from rfl)
    rfl
    (Relation.ReflTransGen.single
      ⟨ThreadPool.Act.crash 0,
        ThreadPool.Step.crash stRunningBoom 0 tboom rfl rfl⟩)).1

/-- Claim C3 is false on the code: a worker that wakes with `stop` set and a
non-empty queue pops the front task and invokes it — queued tasks are
drained AND executed at shutdown, not discarded.  Here `tq`, in the queue at
the moment shutdown begins, is dequeued after the stop flag is set and then
executed. -/
theorem shutdown_discards_queue_cex :
    stShutdownPending.stop = true ∧
    stShutdownPending.queue = [tq] ∧
    ThreadPool.Steps stShutdownPending stShutdownDone ∧
    stShutdownDone.dequeued = [tq] ∧
    stShutdownDone.executed = [tq] := by
  refine ⟨rfl, rfl, ?_, rfl, rfl⟩
  exact Relation.ReflTransGen.head
    ⟨ThreadPool.Act.take 0, ThreadPool.Step.take _ 0 tq [] rfl rfl⟩
    (Relation.ReflTransGen.single
      ⟨ThreadPool.Act.finish 0, ThreadPool.Step.finish _ 0 tq rfl rfl⟩)

/-- Claim C3 (amended): every task still in the queue (or in flight) at the
moment shutdown begins is executed before the workers exit: when the
destructor's join completes on a pool with a live worker and no failing
task, the executed multiset has grown by exactly the queued and in-flight
tasks. -/
theorem shutdown_drains_and_executes {st st' : PoolState}
    (hnt : ThreadPool.NoThrow st) (halive : ¬ ThreadPool.allDead st)
    (hrun : ThreadPool.WSteps { st with stop := true } st')
    (hdead : ThreadPool.allDead st') :
    (↑st'.executed : Multiset Task) =
      ↑st.executed + ↑(ThreadPool.runningTasks st.workers) + ↑st.queue := by
  have hload := ThreadPool.wsteps_load hrun
  have hq : st'.queue = [] := ThreadPool.wsteps_drained hrun hnt halive hdead
  have hcr := ThreadPool.wsteps_crashed hrun hnt
  have hrt : ThreadPool.runningTasks st'.workers = [] :=
    ThreadPool.allDead_runningTasks hdead
  simp only [ThreadPool.load, hq, hcr, hrt] at hload
  simp only [Multiset.coe_nil, add_zero] at hload
  exact add_right_cancel hload

/-- Witness for the amended C3: the pending task `tq` ends up executed once
the worker has drained the queue and exited. -/
theorem shutdown_drains_and_executes_witness :
    (↑stShutdownExited.executed : Multiset Task) =
      ↑stShutdownPending.executed
        + ↑(ThreadPool.runningTasks stShutdownPending.workers)
        + ↑stShutdownPending.queue :=
  shutdown_drains_and_executes (by decide) (by decide)
    (Relation.ReflTransGen.head
      ⟨ThreadPool.Act.take 0, True.intro, ThreadPool.Step.take _ 0 tq [] rfl rfl⟩
      (Relation.ReflTransGen.head
        ⟨ThreadPool.Act.finish 0, True.intro, ThreadPool.Step.finish _ 0 tq rfl rfl⟩
        (Relation.ReflTransGen.single
          ⟨ThreadPool.Act.exitW 0, True.intro,
            ThreadPool.Step.exitW _ 0 rfl rfl rfl⟩)))
    (by decide)

/-- Claim C4: in every complete run of the pool — all workers exited, queue
empty, no invocation failed — the executed tasks are exactly the submitted
tasks: dequeued equals submitted in order, executed equals submitted as a
multiset (each submitted task executed exactly once), and in particular K
submitted tasks yield exactly K executions (100 counter increments yield a
counter of 100). -/
theorem pool_executes_all {n : Nat} {st : PoolState}
    (hreach : ThreadPool.Steps (ThreadPool.init n) st)
    (hq : st.queue = []) (hcr : st.crashed = [])
    (hdead : ThreadPool.allDead st) :
    st.dequeued = st.submitted ∧
    (↑st.executed : Multiset Task) = ↑st.submitted ∧
    st.executed.length = st.submitted.length := by
  have hfifo := ThreadPool.steps_fifo hreach (ThreadPool.fifo_init n)
  rw [hq, List.append_nil] at hfifo
  have hload := ThreadPool.steps_load hreach (ThreadPool.load_init n)
  simp only [ThreadPool.load, hq, hcr, ThreadPool.allDead_runningTasks hdead]
    at hload
  simp only [Multiset.coe_nil, add_zero] at hload
  exact ⟨hfifo, hload, (Multiset.coe_eq_coe.mp hload).length_eq⟩

/-- A complete concrete run of a one-worker pool: submit `tA` and `tB`,
begin shutdown, drain and execute both, worker exits. -/
theorem exRunFull : ThreadPool.Steps (ThreadPool.init 1) exFinal :=
  Relation.ReflTransGen.head
    ⟨ThreadPool.Act.submit tA, ThreadPool.Step.submit _ tA⟩ <|
  Relation.ReflTransGen.head
    ⟨ThreadPool.Act.submit tB, ThreadPool.Step.submit _ tB⟩ <|
  Relation.ReflTransGen.head
    ⟨ThreadPool.Act.setStop, ThreadPool.Step.setStop _⟩ <|
  Relation.ReflTransGen.head
    ⟨ThreadPool.Act.take 0, ThreadPool.Step.take _ 0 tA [tB] rfl rfl⟩ <|
  Relation.ReflTransGen.head
    ⟨ThreadPool.Act.finish 0, ThreadPool.Step.finish _ 0 tA rfl rfl⟩ <|
  Relation.ReflTransGen.head
    ⟨ThreadPool.Act.take 0, ThreadPool.Step.take _ 0 tB [] rfl rfl⟩ <|
  Relation.ReflTransGen.head
    ⟨ThreadPool.Act.finish 0, ThreadPool.Step.finish _ 0 tB rfl rfl⟩ <|
  Relation.ReflTransGen.single
    ⟨ThreadPool.Act.exitW 0, ThreadPool.Step.exitW _ 0 rfl rfl rfl⟩

/-- Witness for C4 on the two-task complete run. -/
theorem pool_executes_all_witness :
    exFinal.dequeued = exFinal.submitted ∧
    (↑exFinal.executed : Multiset Task) = ↑exFinal.submitted ∧
    exFinal.executed.length = exFinal.submitted.length :=
  pool_executes_all exRunFull rfl rfl (by decide)

/-- Claim C7: in every reachable pool state, the tasks dequeued so far
followed by the tasks still queued reproduce the submission order exactly —
workers dequeue in submitter FIFO order; and with a single worker (and no
failing task) even the completed invocations, the in-flight task and the
queue reproduce the submission order, so tasks execute in submission
order. -/
theorem pool_fifo_order {n : Nat} {st : PoolState}
    (hreach : ThreadPool.Steps (ThreadPool.init n) st) :
    st.dequeued ++ st.queue = st.submitted ∧
    (n = 1 → (∀ u ∈ st.submitted, u.throws = false) →
      st.executed ++ ThreadPool.runningTasks st.workers ++ st.queue
        = st.submitted) := by
  constructor
  · exact ThreadPool.steps_fifo hreach (ThreadPool.fifo_init n)
  · rintro rfl hnt
    exact ThreadPool.steps_trace_one hreach rfl hnt rfl

/-- Witness for C7 on the two-task single-worker run: execution order equals
submission order. -/
theorem pool_fifo_order_witness :
    exFinal.executed ++ ThreadPool.runningTasks exFinal.workers ++ exFinal.queue
      = exFinal.submitted :=
  (pool_fifo_order exRunFull).2 rfl (by decide)

/-- Claim C8: the destructor is shutdown: it sets `stop`, wakes everyone,
and its join loop returns only when every worker has exited; at that point
`stop` is still set, no task is in flight, and the queue is empty — the
workers are joined before the pool object ceases to exist. -/
theorem dtor_joins_workers {st st' : PoolState}
    (hnt : ThreadPool.NoThrow st) (halive : ¬ ThreadPool.allDead st)
    (hrun : ThreadPool.WSteps { st with stop := true } st')
    (hdead : ThreadPool.allDead st') :
    st'.stop = true ∧ ThreadPool.runningTasks st'.workers = [] ∧
      st'.queue = [] := by
  refine ⟨?_, ThreadPool.allDead_runningTasks hdead,
    ThreadPool.wsteps_drained hrun hnt halive hdead⟩
  exact ThreadPool.wsteps_stop hrun

/-- Witness for C8: destructing a fresh one-worker pool. -/
theorem dtor_joins_workers_witness :
    stExited.stop = true ∧ ThreadPool.runningTasks stExited.workers = [] ∧
      stExited.queue = [] :=
  @dtor_joins_workers (ThreadPool.init 1) stExited (by decide) (by decide)
    (Relation.ReflTransGen.single
      ⟨ThreadPool.Act.exitW 0, True.intro,
        ThreadPool.Step.exitW { ThreadPool.init 1 with stop := true } 0
          rfl rfl rfl⟩)
    (by decide)

/-- Claim C9: no transition of the pool moves a worker out of the wait loop
while the queue is empty and `stop` is unset: every wake re-checks the
predicate `stop OR queue non-empty` under the mutex before the worker
proceeds. -/
theorem wait_predicate_guard {st st' : PoolState} {a : ThreadPool.Act}
    {i : Nat} (h : ThreadPool.Step st a st')
    (hidle : st.workers.get? i = some WStatus.idle)
    (hleft : st'.workers.get? i ≠ some WStatus.idle) :
    st.stop = true ∨ st.queue ≠ [] := by
  cases h with
  | submit t => exact absurd hidle hleft
  | setStop => exact absurd hidle hleft
  | take j u ts hw hq =>
    right
    rw [hq]
    simp
  | finish j u hw hu =>
    by_cases hij : j = i
    · subst hij
      have h2 := hw.symm.trans hidle
      injection h2 with h2
      cases h2
    · exfalso
      apply hleft
      show (st.workers.set j _).get? i = _
      rw [get?_set_other _ hij]
      exact hidle
  | crash j u hw hu =>
    by_cases hij : j = i
    · subst hij
      have h2 := hw.symm.trans hidle
      injection h2 with h2
      cases h2
    · exfalso
      apply hleft
      show (st.workers.set j _).get? i = _
      rw [get?_set_other _ hij]
      exact hidle
  | exitW j hw hs hq => exact Or.inl hs

/-- Witness for C9: the lone worker of a shut-down pool leaves the wait
loop, and indeed `stop` was set. -/
theorem wait_predicate_guard_witness :
    stStopped.stop = true ∨ stStopped.queue ≠ [] :=
  @wait_predicate_guard stStopped
    { stStopped with workers := stStopped.workers.set 0 WStatus.dead }
    (ThreadPool.Act.exitW 0) 0
    (ThreadPool.Step.exitW stStopped 0 rfl rfl rfl) rfl (by decide)

end CppShowcase
